import Mathlib

/-!
Shallow embedding of the application state controller of the matrix-cli-client
repository (src/app.rs, src/ui.rs, src/matrix.rs), together with theorems about
the behaviour of its scrollable collections, room directory, tab state machine
and event reconciler.

External library values (the matrix SDK client, terminal, channels) are not
modelled; the functions below take the data those collaborators deliver
(event fields, room data, the locally resolved user id) as explicit arguments.
Rendered timestamps and message bodies are kept as opaque strings: the claims
treated here never inspect their contents.
-/

/-- Embeds `tui::widgets::ListState`, reduced to its selection; the scroll offset is
render-only state that none of the modelled operations read. -/
structure ListState where
  selected : Option Nat
deriving DecidableEq, Repr

/-- Embeds `ListState::default()`: no selection. -/
def ListState.new : ListState := ⟨none⟩

/-- Embeds `MessageViewMode` from src/app.rs. -/
inductive MessageViewMode where
  | Follow
  | Scroll
deriving DecidableEq, Repr

/-- Embeds `ScrollableMessageList` from src/app.rs: messages are
(time, sender, body) string triples. -/
structure ScrollableMessageList where
  state : ListState
  messages : List (String × String × String)
  mode : MessageViewMode
deriving DecidableEq, Repr

/-- Embeds `ScrollableMessageList::new` (src/app.rs lines 39-45). -/
def ScrollableMessageList.new : ScrollableMessageList :=
  { state := ListState.new, messages := [], mode := MessageViewMode.Follow }

/-- Embeds `ScrollableMessageList::with_messages` (src/app.rs lines 48-57):
selects `messages.len().saturating_sub(1)`; Nat subtraction is saturating. -/
def ScrollableMessageList.with_messages
    (messages : List (String × String × String)) : ScrollableMessageList :=
  { state := ⟨some (messages.length - 1)⟩, messages := messages,
    mode := MessageViewMode.Follow }

/-- Embeds `ScrollableMessageList::add_message` (src/app.rs lines 65-71). -/
def ScrollableMessageList.add_message (l : ScrollableMessageList)
    (time sender message : String) : ScrollableMessageList :=
  let messages := l.messages ++ [(time, sender, message)]
  if l.mode = MessageViewMode.Follow then
    { l with messages := messages, state := ⟨some (messages.length - 1)⟩ }
  else
    { l with messages := messages }

/-- Embeds `ScrollableMessageList::next_message` (src/app.rs lines 74-91);
`i >= self.messages.len() - 1` is `l.messages.length - 1 ≤ i`. -/
def ScrollableMessageList.next_message (l : ScrollableMessageList) :
    ScrollableMessageList :=
  if l.messages.isEmpty then l else
  match l.state.selected with
  | some i =>
    if l.messages.length - 1 ≤ i then
      { l with mode := MessageViewMode.Follow,
               state := ⟨some (l.messages.length - 1)⟩ }
    else
      { l with mode := MessageViewMode.Scroll, state := ⟨some (i + 1)⟩ }
  | none => { l with state := ⟨some 0⟩ }

/-- Embeds `ScrollableMessageList::previous_message` (src/app.rs lines 94-110). -/
def ScrollableMessageList.previous_message (l : ScrollableMessageList) :
    ScrollableMessageList :=
  if l.messages.isEmpty then l else
  match l.state.selected with
  | some i =>
    if i = 0 then
      { l with state := ⟨some 0⟩ }
    else
      { l with mode := MessageViewMode.Scroll, state := ⟨some (i - 1)⟩ }
  | none => { l with state := ⟨some 0⟩ }

/-- Embeds `ScrollableMemberList` from src/app.rs: members are
(display name, user id) string pairs. -/
structure ScrollableMemberList where
  state : ListState
  members : List (String × String)
deriving DecidableEq, Repr

/-- Embeds `ScrollableMemberList::with_members` (src/app.rs lines 123-128). -/
def ScrollableMemberList.with_members
    (members : List (String × String)) : ScrollableMemberList :=
  { state := ListState.new, members := members }

/-- Embeds `ScrollableMemberList::next_member` (src/app.rs lines 131-146):
wraps to index 0 past the last member. -/
def ScrollableMemberList.next_member (l : ScrollableMemberList) :
    ScrollableMemberList :=
  if l.members.isEmpty then l else
  match l.state.selected with
  | some i =>
    if l.members.length - 1 ≤ i then { l with state := ⟨some 0⟩ }
    else { l with state := ⟨some (i + 1)⟩ }
  | none => { l with state := ⟨some 0⟩ }

/-- Embeds `ScrollableMemberList::previous_member` (src/app.rs lines 149-164). -/
def ScrollableMemberList.previous_member (l : ScrollableMemberList) :
    ScrollableMemberList :=
  if l.members.isEmpty then l else
  match l.state.selected with
  | some i =>
    if i = 0 then { l with state := ⟨some (l.members.length - 1)⟩ }
    else { l with state := ⟨some (i - 1)⟩ }
  | none => { l with state := ⟨some 0⟩ }

/-- One raw event yielded by the SDK's backward timeline during backfill
(src/app.rs lines 206-234): `fail` is a stream or deserialization error (the
loop breaks), `other` is a non-RoomMessage event (skipped), `msg` is an
original RoomMessage carrying its already-rendered time, sender and body. -/
inductive TimelineItem where
  | fail
  | other
  | msg (time sender body : String)
deriving DecidableEq, Repr

/-- The message-gathering loop of `Room::new` (src/app.rs lines 205-234),
in backward-iteration order, before the single `messages.reverse()`. -/
def gatherBackfill : List TimelineItem → List (String × String × String)
  | [] => []
  | TimelineItem.fail :: _ => []
  | TimelineItem.other :: rest => gatherBackfill rest
  | TimelineItem.msg t s b :: rest => (t, s, b) :: gatherBackfill rest

/-- The data `Room::new` (src/app.rs lines 181-250) extracts from a
`matrix_sdk::room::Room`: its id, the `display_name()` result (`none` = `Err`),
the `joined_members()` result (each member is `display_name()` paired with
`user_id()`), and the `timeline_backward()` result (`none` = `Err`). -/
structure MatrixRoomData where
  room_id : String
  display_name : Option String
  joined_members : Option (List (Option String × String))
  timeline : Option (List TimelineItem)
deriving DecidableEq, Repr

/-- Embeds `Room` from src/app.rs lines 167-172. -/
structure Room where
  name : String
  id : String
  messages : ScrollableMessageList
  members : ScrollableMemberList
deriving DecidableEq, Repr

/-- Embeds `Room::new` (src/app.rs lines 181-250). -/
def Room.new (room : MatrixRoomData) : Room :=
  let name := match room.display_name with
    | some name => name
    | none => "Unknown name"
  let members := match room.joined_members with
    | some members => members
    | none => []
  let member_names := members.map fun member =>
    match member.1 with
    | some n => (n, member.2)
    | none => (member.2, member.2)
  let messages := match room.timeline with
    | some timeline =>
        ScrollableMessageList.with_messages (gatherBackfill timeline).reverse
    | none => ScrollableMessageList.new
  { name := name, id := room.room_id, messages := messages,
    members := ScrollableMemberList.with_members member_names }

/-- Embeds `ScrollableRoomList` from src/app.rs lines 254-257. -/
structure ScrollableRoomList where
  state : ListState
  rooms : List Room
deriving DecidableEq, Repr

/-- Embeds `ScrollableRoomList::new` (src/app.rs lines 261-266). -/
def ScrollableRoomList.new : ScrollableRoomList :=
  { state := ListState.new, rooms := [] }

/-- Embeds `ScrollableRoomList::add_room` (src/app.rs lines 273-276). -/
def ScrollableRoomList.add_room (l : ScrollableRoomList)
    (room : MatrixRoomData) : ScrollableRoomList :=
  { l with rooms := l.rooms ++ [Room.new room] }

/-- Embeds `ScrollableRoomList::next_room` (src/app.rs lines 279-294):
wraps to index 0 past the last room. -/
def ScrollableRoomList.next_room (l : ScrollableRoomList) :
    ScrollableRoomList :=
  if l.rooms.isEmpty then l else
  match l.state.selected with
  | some i =>
    if l.rooms.length - 1 ≤ i then { l with state := ⟨some 0⟩ }
    else { l with state := ⟨some (i + 1)⟩ }
  | none => { l with state := ⟨some 0⟩ }

/-- Embeds `ScrollableRoomList::previous_room` (src/app.rs lines 297-312). -/
def ScrollableRoomList.previous_room (l : ScrollableRoomList) :
    ScrollableRoomList :=
  if l.rooms.isEmpty then l else
  match l.state.selected with
  | some i =>
    if i = 0 then { l with state := ⟨some (l.rooms.length - 1)⟩ }
    else { l with state := ⟨some (i - 1)⟩ }
  | none => { l with state := ⟨some 0⟩ }

/-- Embeds `ScrollableRoomList::get_current_room` (src/app.rs lines 315-321). -/
def ScrollableRoomList.get_current_room (l : ScrollableRoomList) : Option Room :=
  match l.state.selected with
  | some i => l.rooms.get? i
  | none => none

/-- Embeds `Tabs` from src/app.rs lines 326-331. -/
inductive Tabs where
  | Room
  | Members
  | Messages
  | Input
deriving DecidableEq, Repr

/-- Embeds `App` from src/app.rs lines 334-339; the SDK client handle is replaced by
passing each handler the data it reads from the client. -/
structure App where
  rooms : ScrollableRoomList
  current_tab : Tabs
  input : String
deriving DecidableEq, Repr

/-- Embeds `App::load_rooms` (src/app.rs lines 360-376), given the joined rooms the
client reports; invitation acceptance is background work with no App effect. -/
def App.load_rooms (app : App) (joined : List MatrixRoomData) : App :=
  { app with rooms := joined.foldl (fun rl room => rl.add_room room) app.rooms }

/-- Embeds `App::new` (src/app.rs lines 348-357). -/
def App.new (joined : List MatrixRoomData) : App :=
  App.load_rooms
    { rooms := ScrollableRoomList.new, current_tab := Tabs.Room, input := "" }
    joined

/-- Embeds `MembershipState` (ruma), restricted to the arms src/app.rs matches on. -/
inductive MembershipState where
  | Join
  | Leave
  | Other
deriving DecidableEq, Repr

/-- The fields of `OriginalSyncRoomMemberEvent` read by
`App::handle_matrix_room_event`: `content.membership`, `state_key` (the user
id the membership change is about) and `content.displayname`. -/
structure OriginalSyncRoomMemberEvent where
  membership : MembershipState
  state_key : String
  displayname : Option String
deriving DecidableEq, Repr

/-- Embeds `iter().position(p)` / `iter_mut().find(p)` index: the first index whose
element satisfies `p`. -/
def findIndex (p : α → Bool) : List α → Option Nat
  | [] => none
  | x :: xs => if p x then some 0 else (findIndex p xs).map (· + 1)

/-- In-place mutation of the element at one index (the effect of mutating
through `iter_mut().find` / `get_mut(i)`); identity when out of range. -/
def modifyIdx (f : α → α) : Nat → List α → List α
  | _, [] => []
  | 0, x :: xs => f x :: xs
  | n + 1, x :: xs => x :: modifyIdx f n xs

/-- Embeds `Vec::remove(i)` (identity when out of range, which the source never
reaches because the index comes from `position`). -/
def removeIdx : List α → Nat → List α
  | [], _ => []
  | _ :: xs, 0 => xs
  | x :: xs, n + 1 => x :: removeIdx xs n

/-- The member upsert inside the Join arm of `App::handle_matrix_room_event`
(src/app.rs lines 451-464): push only when no entry has this user id. -/
def membersUpsert (members : List (String × String))
    (display_name state_key : String) : List (String × String) :=
  match findIndex (fun m => m.2 == state_key) members with
  | some _ => members
  | none => members ++ [(display_name, state_key)]

/-- The member removal inside the Leave arm of `App::handle_matrix_room_event`
(src/app.rs lines 495-510): find the entry by user id, deselect it if it was
selected, then remove it. -/
def ScrollableMemberList.remove_by_user_id (l : ScrollableMemberList)
    (state_key : String) : ScrollableMemberList :=
  match findIndex (fun m => m.2 == state_key) l.members with
  | some j =>
      { state := ⟨if l.state.selected = some j then none else l.state.selected⟩,
        members := removeIdx l.members j }
  | none => l

/-- The `MembershipState::Join` block of `App::handle_matrix_room_event`
(src/app.rs lines 442-475). -/
def App.handle_join (app : App) (event : OriginalSyncRoomMemberEvent)
    (room : MatrixRoomData) (user_id : String) : App :=
  let room_id := room.room_id
  match findIndex (fun r => r.id == room_id) app.rooms.rooms with
  | some i =>
    let display_name := match event.displayname with
      | some display_name => display_name
      | none => "Unknown name"
    { app with rooms := { app.rooms with
        rooms := modifyIdx (fun r => { r with members := { r.members with
          members := membersUpsert r.members.members display_name
            event.state_key } }) i app.rooms.rooms } }
  | none =>
    if event.state_key = user_id then
      { app with rooms := app.rooms.add_room room }
    else app

/-- The `MembershipState::Leave` block of `App::handle_matrix_room_event`
(src/app.rs lines 476-515). -/
def App.handle_leave (app : App) (event : OriginalSyncRoomMemberEvent)
    (room : MatrixRoomData) (user_id : String) : App :=
  let room_id := room.room_id
  match findIndex (fun r => r.id == room_id) app.rooms.rooms with
  | some i =>
    if event.state_key = user_id then
      { app with
        rooms :=
          { state := ⟨if app.rooms.state.selected = some i then none
                      else app.rooms.state.selected⟩,
            rooms := removeIdx app.rooms.rooms i },
        current_tab :=
          if app.current_tab = Tabs.Members ∨ app.current_tab = Tabs.Input
          then Tabs.Room else app.current_tab }
    else
      { app with rooms := { app.rooms with
          rooms := modifyIdx
            (fun r => { r with
              members := r.members.remove_by_user_id event.state_key })
            i app.rooms.rooms } }
  | none => app

/-- Embeds `App::handle_matrix_room_event` (src/app.rs lines 432-516):
`client.user_id()` is passed in as `client_user_id`; the source runs the Join
`if` block and then the Leave `if` block in sequence. -/
def App.handle_matrix_room_event (app : App)
    (event : OriginalSyncRoomMemberEvent) (room : MatrixRoomData)
    (client_user_id : Option String) : App :=
  match client_user_id with
  | none => app
  | some user_id =>
    let app1 := if event.membership = MembershipState.Join then
        app.handle_join event room user_id
      else app
    if event.membership = MembershipState.Leave then
      app1.handle_leave event room user_id
    else app1

/-- Embeds `App::next_tab` (src/app.rs lines 524-544); the Members arm deselects the
current room's member roster via `get_current_room` (no room found: no-op). -/
def App.next_tab (app : App) : App :=
  match app.current_tab with
  | Tabs.Room => { app with current_tab := Tabs.Messages }
  | Tabs.Messages =>
    match app.rooms.state.selected with
    | some _ => { app with current_tab := Tabs.Input }
    | none => { app with current_tab := Tabs.Room }
  | Tabs.Input => { app with current_tab := Tabs.Members }
  | Tabs.Members =>
    let rooms := match app.rooms.state.selected with
      | some i => { app.rooms with
          rooms := modifyIdx
            (fun r => { r with members := { r.members with state := ⟨none⟩ } })
            i app.rooms.rooms }
      | none => app.rooms
    { app with rooms := rooms, current_tab := Tabs.Room }

/-- The environment `ClientExt::send_message` (src/matrix.rs lines 130-145)
consults after its emptiness guard: whether `RoomId::parse` succeeds and
`get_joined_room` finds the room. -/
structure SendEnv where
  valid_room : String → Bool

/-- Embeds `ClientExt::send_message` (src/matrix.rs lines 130-145), returning the
(room id, text) pair actually handed to `room.send` - `none` when no external
send is performed. -/
def sendMessage (env : SendEnv) (room_id message : String) :
    Option (String × String) :=
  if message = "" then none
  else if env.valid_room room_id then some (room_id, message) else none

/-- The `KeyCode::Enter` arm of the Input tab in `run_ui`
(src/ui.rs lines 136-142): when a current room exists, drain the input buffer
and call `send_message` with it; second component is the performed send. -/
def App.submit_input (env : SendEnv) (app : App) :
    App × Option (String × String) :=
  match app.rooms.get_current_room with
  | some room =>
      ({ app with input := "" }, sendMessage env room.id app.input)
  | none => (app, none)

/-! ### Helper lemmas about the list combinators -/

theorem findIndex_none_forall {α : Type _} {p : α → Bool} {l : List α}
    (h : findIndex p l = none) : ∀ x ∈ l, p x = false := by
  induction l with
  | nil => intro x hx; cases hx
  | cons a as ih =>
    simp only [findIndex] at h
    by_cases hp : p a = true
    · rw [if_pos hp] at h; cases h
    · rw [if_neg hp] at h
      intro x hx
      cases hx with
      | head => exact Bool.eq_false_iff.mpr hp
      | tail _ hx => exact ih (Option.map_eq_none'.mp h) x hx

theorem map_modifyIdx {α β : Type _} {f : α → α} {g : α → β}
    (hfg : ∀ a, g (f a) = g a) :
    ∀ (n : Nat) (l : List α), (modifyIdx f n l).map g = l.map g := by
  intro n l
  induction l generalizing n with
  | nil => cases n <;> rfl
  | cons a as ih =>
    cases n with
    | zero => simp [modifyIdx, hfg]
    | succ m => simp [modifyIdx, ih]

theorem nodup_map_modifyIdx {α β : Type _} {f : α → α} {g : α → β} {n : Nat}
    {l : List α} (hfg : ∀ a, g (f a) = g a) (h : (l.map g).Nodup) :
    ((modifyIdx f n l).map g).Nodup := by
  rw [map_modifyIdx hfg]
  exact h

theorem get?_modifyIdx_self {α : Type _} {f : α → α} :
    ∀ (n : Nat) (l : List α), (modifyIdx f n l).get? n = (l.get? n).map f := by
  intro n l
  induction l generalizing n with
  | nil => cases n <;> rfl
  | cons a as ih =>
    cases n with
    | zero => rfl
    | succ m => simpa [modifyIdx] using ih m

theorem map_removeIdx {α β : Type _} {g : α → β} :
    ∀ (l : List α) (n : Nat), (removeIdx l n).map g = removeIdx (l.map g) n := by
  intro l
  induction l with
  | nil => intro n; rfl
  | cons a as ih =>
    intro n
    cases n with
    | zero => rfl
    | succ m => simp [removeIdx, ih]

theorem removeIdx_sublist {α : Type _} :
    ∀ (l : List α) (n : Nat), List.Sublist (removeIdx l n) l := by
  intro l
  induction l with
  | nil => intro n; cases n <;> exact List.Sublist.refl []
  | cons a as ih =>
    intro n
    cases n with
    | zero => exact List.sublist_cons_self a as
    | succ m => exact List.Sublist.cons₂ a (ih m)

theorem findIndex_none_filter {α : Type _} {p : α → Bool} {l : List α}
    (h : findIndex p l = none) : l.filter p = [] := by
  induction l with
  | nil => rfl
  | cons a as ih =>
    simp only [findIndex] at h
    by_cases hp : p a = true
    · rw [if_pos hp] at h; cases h
    · rw [if_neg hp] at h
      simp [List.filter_cons, hp, ih (Option.map_eq_none'.mp h)]

theorem filter_pos_of_findIndex_some {α : Type _} {p : α → Bool} {l : List α}
    {k : Nat} (h : findIndex p l = some k) : 1 ≤ (l.filter p).length := by
  induction l generalizing k with
  | nil => cases h
  | cons a as ih =>
    simp only [findIndex] at h
    by_cases hp : p a = true
    · simp [List.filter_cons, hp]
    · rw [if_neg hp] at h
      rcases Option.map_eq_some'.mp h with ⟨k', hk', _⟩
      have h1 := ih hk'
      simp only [List.filter_cons, hp, if_false]
      simpa [hp] using h1

theorem findIndex_concat_of_none {α : Type _} {p : α → Bool} {l : List α}
    {x : α} (h : findIndex p l = none) (hx : p x = true) :
    findIndex p (l ++ [x]) = some l.length := by
  induction l with
  | nil => simp [findIndex, hx]
  | cons a as ih =>
    simp only [findIndex] at h
    show findIndex p (a :: (as ++ [x])) = some (as.length + 1)
    simp only [findIndex]
    by_cases hp : p a = true
    · rw [if_pos hp] at h; cases h
    · rw [if_neg hp] at h
      rw [if_neg hp, ih (Option.map_eq_none'.mp h)]
      rfl

/-! ### Concrete fixtures used by several witnesses -/

/-- A joined room "r1" as delivered by the client, with no members and an
empty (but successful) backward timeline. -/
def roomDataR1 : MatrixRoomData :=
  { room_id := "r1", display_name := some "Room 1",
    joined_members := some [], timeline := some [] }

/-- A joined room "r2", like `roomDataR1`. -/
def roomDataR2 : MatrixRoomData :=
  { room_id := "r2", display_name := some "Room 2",
    joined_members := some [], timeline := some [] }

/-- A membership Leave event whose target is the local user `@me:x`. -/
def leaveSelfEvent : OriginalSyncRoomMemberEvent :=
  { membership := MembershipState.Leave, state_key := "@me:x",
    displayname := none }

/-- The app after startup with joined rooms r1 and r2 and two Down keys in the
Room tab (`next_room` twice), leaving room index 1 selected. -/
def appTwoRoomsSelSecond : App :=
  let app0 := App.new [roomDataR1, roomDataR2]
  { app0 with rooms := app0.rooms.next_room.next_room }

/-- C1: the claimed invariant - a present selected index is always strictly
below the collection's length, and at length 0 the selection is unset - is
broken by the code on two reachable inputs, so the claim marks a code bug.
First, after loading rooms r1 and r2, selecting index 1, and receiving a
self-Leave for r1 (which sits below the selected index), the directory keeps
selection `some 1` while only one room remains, so the selected index equals
the length; `draw_room_tab` (src/ui.rs line 297) then indexes
`app.rooms.rooms[i]` out of bounds, defeating the code's own
"Deselect room to avoid crash" guard, which only fires when the removed index
itself is selected. Second, `ScrollableMessageList::with_messages(vec![])`
(reached by `Room::new` for a room whose successful backfill yields no
messages) selects `Some(0)` while the length is 0. -/
theorem leave_below_selected_breaks_selection_invariant :
    ((appTwoRoomsSelSecond.handle_matrix_room_event leaveSelfEvent roomDataR1
        (some "@me:x")).rooms.rooms.length = 1
      ∧ (appTwoRoomsSelSecond.handle_matrix_room_event leaveSelfEvent roomDataR1
        (some "@me:x")).rooms.state.selected = some 1)
    ∧ (ScrollableMessageList.with_messages []).messages.length = 0
    ∧ (ScrollableMessageList.with_messages []).state.selected = some 0 := by
  exact ⟨⟨rfl, rfl⟩, rfl, rfl⟩

/-- C2 counterexample: the claim says `previous()` at index 0 stays at 0 "and
still sets Scroll". On a one-message timeline (selection 0, mode Follow, as
built by `with_messages`), `previous_message` leaves the mode at Follow:
src/app.rs lines 98-107 only set `Scroll` in the `i != 0` branch. -/
theorem previous_at_zero_keeps_follow :
    ((ScrollableMessageList.with_messages
        [("t1", "alice", "hi")]).previous_message).mode ≠ MessageViewMode.Scroll
    ∧ ((ScrollableMessageList.with_messages
        [("t1", "alice", "hi")]).previous_message).mode
        = MessageViewMode.Follow := by
  exact ⟨(fun h => nomatch h), rfl⟩

/-- C2 (amended): the actual mode/selection step function of the timeline.
`previous()` from a selected index i > 0 switches to Scroll and selects i - 1;
`previous()` at index 0 stays at 0 and leaves the mode unchanged; `previous()`
or `next()` with no selection selects 0 without changing the mode; `next()`
onto or past the last element stays at the last index and switches back to
Follow; append in Follow mode moves selection to the new last element; append
in Scroll mode never moves selection. -/
theorem timeline_step_policy_amended :
    (∀ (l : ScrollableMessageList) (i : Nat), l.messages ≠ [] →
      l.state.selected = some i → 0 < i →
      (l.previous_message).mode = MessageViewMode.Scroll
      ∧ (l.previous_message).state.selected = some (i - 1))
    ∧ (∀ (l : ScrollableMessageList), l.messages ≠ [] →
        l.state.selected = some 0 →
        (l.previous_message).state.selected = some 0
        ∧ (l.previous_message).mode = l.mode)
    ∧ (∀ (l : ScrollableMessageList), l.messages ≠ [] →
        l.state.selected = none →
        (l.previous_message).state.selected = some 0
        ∧ (l.previous_message).mode = l.mode
        ∧ (l.next_message).state.selected = some 0
        ∧ (l.next_message).mode = l.mode)
    ∧ (∀ (l : ScrollableMessageList) (i : Nat), l.messages ≠ [] →
        l.state.selected = some i → l.messages.length - 1 ≤ i →
        (l.next_message).mode = MessageViewMode.Follow
        ∧ (l.next_message).state.selected = some (l.messages.length - 1))
    ∧ (∀ (l : ScrollableMessageList) (t s m : String),
        l.mode = MessageViewMode.Follow →
        (l.add_message t s m).state.selected = some l.messages.length
        ∧ (l.add_message t s m).messages = l.messages ++ [(t, s, m)])
    ∧ (∀ (l : ScrollableMessageList) (t s m : String),
        l.mode = MessageViewMode.Scroll →
        (l.add_message t s m).state.selected = l.state.selected
        ∧ (l.add_message t s m).messages = l.messages ++ [(t, s, m)]) := by
  refine ⟨?_, ?_, ?_, ?_, ?_, ?_⟩
  · rintro ⟨⟨sel⟩, msgs, mode⟩ i h hs hi
    have hs' : sel = some i := hs
    subst hs'
    cases msgs with
    | nil => exact absurd rfl h
    | cons a ms =>
      have hne : ¬ i = 0 := by omega
      simp [ScrollableMessageList.previous_message, hne]
  · rintro ⟨⟨sel⟩, msgs, mode⟩ h hs
    have hs' : sel = some 0 := hs
    subst hs'
    cases msgs with
    | nil => exact absurd rfl h
    | cons a ms => simp [ScrollableMessageList.previous_message]
  · rintro ⟨⟨sel⟩, msgs, mode⟩ h hs
    have hs' : sel = none := hs
    subst hs'
    cases msgs with
    | nil => exact absurd rfl h
    | cons a ms =>
      simp [ScrollableMessageList.previous_message,
        ScrollableMessageList.next_message]
  · rintro ⟨⟨sel⟩, msgs, mode⟩ i h hs hlen
    have hs' : sel = some i := hs
    subst hs'
    cases msgs with
    | nil => exact absurd rfl h
    | cons a ms =>
      have hlen' : (a :: ms).length - 1 ≤ i := hlen
      simp only [List.length_cons, Nat.add_sub_cancel] at hlen' ⊢
      simp [ScrollableMessageList.next_message, hlen']
  · rintro ⟨⟨sel⟩, msgs, mode⟩ t s m hm
    have hm' : mode = MessageViewMode.Follow := hm
    subst hm'
    simp [ScrollableMessageList.add_message]
  · rintro ⟨⟨sel⟩, msgs, mode⟩ t s m hm
    have hm' : mode = MessageViewMode.Scroll := hm
    subst hm'
    simp [ScrollableMessageList.add_message]

/-- Witness for `timeline_step_policy_amended` on a three-message timeline:
previous from the last index 2 scrolls to 1, next at the last index keeps
Follow and index 2, append in Follow selects the new last index 3. -/
theorem timeline_step_policy_amended_witness :
    (((ScrollableMessageList.with_messages
        [("t1", "a", "m1"), ("t2", "b", "m2"),
         ("t3", "c", "m3")]).previous_message).mode = MessageViewMode.Scroll
      ∧ ((ScrollableMessageList.with_messages
        [("t1", "a", "m1"), ("t2", "b", "m2"),
         ("t3", "c", "m3")]).previous_message).state.selected = some 1)
    ∧ ((ScrollableMessageList.with_messages
        [("t1", "a", "m1"), ("t2", "b", "m2"),
         ("t3", "c", "m3")]).next_message).mode = MessageViewMode.Follow
    ∧ ((ScrollableMessageList.with_messages
        [("t1", "a", "m1"), ("t2", "b", "m2"),
         ("t3", "c", "m3")]).add_message "t4" "d" "m4").state.selected
        = some 3 := by
  refine ⟨?_, ?_, ?_⟩
  · exact (timeline_step_policy_amended.1 _ 2 (by decide) rfl (by decide)).imp
      id (fun h => h)
  · exact (timeline_step_policy_amended.2.2.2.1 _ 2 (by decide) rfl
      (by decide)).1
  · exact (timeline_step_policy_amended.2.2.2.2.1 _ "t4" "d" "m4" rfl).1

/-- Lemma: `gatherBackfill` ignores everything at and after the first failing raw
event: the gathering loop of `Room::new` breaks there. -/
theorem gatherBackfill_append_fail : ∀ (xs ys : List TimelineItem),
    gatherBackfill (xs ++ TimelineItem.fail :: ys) = gatherBackfill xs := by
  intro xs ys
  induction xs with
  | nil => rfl
  | cons x xs ih => cases x <;> simp [gatherBackfill, ih]

/-- Room data whose backward timeline yields messages m3, m2, m1 in
reverse-chronological order. -/
def backfillRoomData : MatrixRoomData :=
  { room_id := "R", display_name := some "R", joined_members := some [],
    timeline := some [TimelineItem.msg "t3" "s3" "m3",
      TimelineItem.msg "t2" "s2" "m2", TimelineItem.msg "t1" "s1" "m1"] }

/-- C7: backfill gathered in reverse-chronological order [m3, m2, m1] yields
the ascending timeline [m1, m2, m3] (reversed exactly once), with mode Follow
and initial selection at the last index 2; and a failure mid-stream truncates
the backfill to the raw events gathered before it. -/
theorem backfill_reverse_and_truncate :
    ((Room.new backfillRoomData).messages.messages
        = [("t1", "s1", "m1"), ("t2", "s2", "m2"), ("t3", "s3", "m3")]
      ∧ (Room.new backfillRoomData).messages.mode = MessageViewMode.Follow
      ∧ (Room.new backfillRoomData).messages.state.selected = some 2)
    ∧ (∀ (room : MatrixRoomData) (xs ys : List TimelineItem),
        Room.new { room with timeline := some (xs ++ TimelineItem.fail :: ys) }
          = Room.new { room with timeline := some xs }) := by
  refine ⟨⟨rfl, rfl, rfl⟩, ?_⟩
  intro room xs ys
  simp [Room.new, gatherBackfill_append_fail]

/-- C10: when the local user's identity cannot be resolved
(`client.user_id()` is `None`), `handle_matrix_room_event` returns before any
mutation: the whole App state (directory, rosters, timelines, tab) is
unchanged (src/app.rs lines 438-441). -/
theorem membership_event_no_user_id_noop :
    ∀ (app : App) (event : OriginalSyncRoomMemberEvent)
      (room : MatrixRoomData),
      app.handle_matrix_room_event event room none = app := by
  intro app event room
  rfl

/-! ### Iterated next() on the three scrollable collections -/

/-- k-fold iteration of `next_member`. -/
def ScrollableMemberList.nextN (l : ScrollableMemberList) :
    Nat → ScrollableMemberList
  | 0 => l
  | k + 1 => (l.nextN k).next_member

/-- k-fold iteration of `next_room`. -/
def ScrollableRoomList.nextN (l : ScrollableRoomList) :
    Nat → ScrollableRoomList
  | 0 => l
  | k + 1 => (l.nextN k).next_room

/-- k-fold iteration of `next_message`. -/
def ScrollableMessageList.nextN (l : ScrollableMessageList) :
    Nat → ScrollableMessageList
  | 0 => l
  | k + 1 => (l.nextN k).next_message

theorem next_member_members (l : ScrollableMemberList) :
    (l.next_member).members = l.members := by
  obtain ⟨⟨sel⟩, ms⟩ := l
  cases ms with
  | nil => rfl
  | cons a ms =>
    cases sel with
    | none => rfl
    | some i =>
      simp only [ScrollableMemberList.next_member]
      split
      · rfl
      · split <;> rfl

theorem memberNextN_members (l : ScrollableMemberList) :
    ∀ k, (l.nextN k).members = l.members := by
  intro k
  induction k with
  | zero => rfl
  | succ k ih =>
    show ((l.nextN k).next_member).members = l.members
    rw [next_member_members, ih]

theorem next_member_sel_of_none (l : ScrollableMemberList)
    (h : l.members ≠ []) (hs : l.state.selected = none) :
    (l.next_member).state.selected = some 0 := by
  obtain ⟨⟨sel⟩, ms⟩ := l
  have hs' : sel = none := hs
  subst hs'
  cases ms with
  | nil => exact absurd rfl h
  | cons a ms => rfl

theorem next_member_sel_of_lt (l : ScrollableMemberList) (i : Nat)
    (hs : l.state.selected = some i) (hi : i + 1 < l.members.length) :
    (l.next_member).state.selected = some (i + 1) := by
  obtain ⟨⟨sel⟩, ms⟩ := l
  have hs' : sel = some i := hs
  subst hs'
  cases ms with
  | nil => exact absurd hi (by simp)
  | cons a ms =>
    have hi' : ¬ ms.length ≤ i := by
      simp only [List.length_cons] at hi
      omega
    simp [ScrollableMemberList.next_member, hi']

theorem next_member_sel_of_last (l : ScrollableMemberList) (i : Nat)
    (h : l.members ≠ []) (hs : l.state.selected = some i)
    (hi : l.members.length - 1 ≤ i) :
    (l.next_member).state.selected = some 0 := by
  obtain ⟨⟨sel⟩, ms⟩ := l
  have hs' : sel = some i := hs
  subst hs'
  cases ms with
  | nil => exact absurd rfl h
  | cons a ms =>
    have hi' : ms.length ≤ i := by
      have : (a :: ms).length - 1 ≤ i := hi
      simp only [List.length_cons] at this
      omega
    simp [ScrollableMemberList.next_member, hi']

theorem memberNextN_sel (l : ScrollableMemberList) :
    ∀ (k i : Nat), l.state.selected = some i → i + k < l.members.length →
      ((l.nextN k).state.selected = some (i + k)) := by
  intro k
  induction k with
  | zero => intro i hs _; simpa using hs
  | succ k ih =>
    intro i hs hik
    show ((l.nextN k).next_member).state.selected = some (i + (k + 1))
    have h1 : (l.nextN k).state.selected = some (i + k) :=
      ih i hs (by omega)
    have h2 : (i + k) + 1 < (l.nextN k).members.length := by
      rw [memberNextN_members]; omega
    have := next_member_sel_of_lt (l.nextN k) (i + k) h1 h2
    simpa [Nat.add_assoc] using this

theorem memberNextN_add (l : ScrollableMemberList) (a : Nat) :
    ∀ b, l.nextN (a + b) = (l.nextN a).nextN b := by
  intro b
  induction b with
  | zero => rfl
  | succ b ih =>
    show (l.nextN (a + b)).next_member = ((l.nextN a).nextN b).next_member
    rw [ih]

theorem next_room_rooms (l : ScrollableRoomList) :
    (l.next_room).rooms = l.rooms := by
  obtain ⟨⟨sel⟩, rs⟩ := l
  cases rs with
  | nil => rfl
  | cons a rs =>
    cases sel with
    | none => rfl
    | some i =>
      simp only [ScrollableRoomList.next_room]
      split
      · rfl
      · split <;> rfl

theorem roomNextN_rooms (l : ScrollableRoomList) :
    ∀ k, (l.nextN k).rooms = l.rooms := by
  intro k
  induction k with
  | zero => rfl
  | succ k ih =>
    show ((l.nextN k).next_room).rooms = l.rooms
    rw [next_room_rooms, ih]

theorem next_room_sel_of_none (l : ScrollableRoomList)
    (h : l.rooms ≠ []) (hs : l.state.selected = none) :
    (l.next_room).state.selected = some 0 := by
  obtain ⟨⟨sel⟩, rs⟩ := l
  have hs' : sel = none := hs
  subst hs'
  cases rs with
  | nil => exact absurd rfl h
  | cons a rs => rfl

theorem next_room_sel_of_lt (l : ScrollableRoomList) (i : Nat)
    (hs : l.state.selected = some i) (hi : i + 1 < l.rooms.length) :
    (l.next_room).state.selected = some (i + 1) := by
  obtain ⟨⟨sel⟩, rs⟩ := l
  have hs' : sel = some i := hs
  subst hs'
  cases rs with
  | nil => exact absurd hi (by simp)
  | cons a rs =>
    have hi' : ¬ rs.length ≤ i := by
      simp only [List.length_cons] at hi
      omega
    simp [ScrollableRoomList.next_room, hi']

theorem next_room_sel_of_last (l : ScrollableRoomList) (i : Nat)
    (h : l.rooms ≠ []) (hs : l.state.selected = some i)
    (hi : l.rooms.length - 1 ≤ i) :
    (l.next_room).state.selected = some 0 := by
  obtain ⟨⟨sel⟩, rs⟩ := l
  have hs' : sel = some i := hs
  subst hs'
  cases rs with
  | nil => exact absurd rfl h
  | cons a rs =>
    have hi' : rs.length ≤ i := by
      have : (a :: rs).length - 1 ≤ i := hi
      simp only [List.length_cons] at this
      omega
    simp [ScrollableRoomList.next_room, hi']

theorem roomNextN_sel (l : ScrollableRoomList) :
    ∀ (k i : Nat), l.state.selected = some i → i + k < l.rooms.length →
      ((l.nextN k).state.selected = some (i + k)) := by
  intro k
  induction k with
  | zero => intro i hs _; simpa using hs
  | succ k ih =>
    intro i hs hik
    show ((l.nextN k).next_room).state.selected = some (i + (k + 1))
    have h1 : (l.nextN k).state.selected = some (i + k) :=
      ih i hs (by omega)
    have h2 : (i + k) + 1 < (l.nextN k).rooms.length := by
      rw [roomNextN_rooms]; omega
    have := next_room_sel_of_lt (l.nextN k) (i + k) h1 h2
    simpa [Nat.add_assoc] using this

theorem roomNextN_add (l : ScrollableRoomList) (a : Nat) :
    ∀ b, l.nextN (a + b) = (l.nextN a).nextN b := by
  intro b
  induction b with
  | zero => rfl
  | succ b ih =>
    show (l.nextN (a + b)).next_room = ((l.nextN a).nextN b).next_room
    rw [ih]

theorem next_message_messages (l : ScrollableMessageList) :
    (l.next_message).messages = l.messages := by
  obtain ⟨⟨sel⟩, msgs, mode⟩ := l
  cases msgs with
  | nil => rfl
  | cons a msgs =>
    cases sel with
    | none => rfl
    | some i =>
      simp only [ScrollableMessageList.next_message]
      split
      · rfl
      · split <;> rfl

theorem messageNextN_messages (l : ScrollableMessageList) :
    ∀ k, (l.nextN k).messages = l.messages := by
  intro k
  induction k with
  | zero => rfl
  | succ k ih =>
    show ((l.nextN k).next_message).messages = l.messages
    rw [next_message_messages, ih]

theorem next_message_sel_of_none (l : ScrollableMessageList)
    (h : l.messages ≠ []) (hs : l.state.selected = none) :
    (l.next_message).state.selected = some 0 := by
  obtain ⟨⟨sel⟩, msgs, mode⟩ := l
  have hs' : sel = none := hs
  subst hs'
  cases msgs with
  | nil => exact absurd rfl h
  | cons a msgs => rfl

theorem next_message_sel_of_lt (l : ScrollableMessageList) (i : Nat)
    (hs : l.state.selected = some i) (hi : i + 1 < l.messages.length) :
    (l.next_message).state.selected = some (i + 1) := by
  obtain ⟨⟨sel⟩, msgs, mode⟩ := l
  have hs' : sel = some i := hs
  subst hs'
  cases msgs with
  | nil => exact absurd hi (by simp)
  | cons a msgs =>
    have hi' : ¬ msgs.length ≤ i := by
      simp only [List.length_cons] at hi
      omega
    simp [ScrollableMessageList.next_message, hi']

theorem next_message_sel_of_last (l : ScrollableMessageList) (i : Nat)
    (h : l.messages ≠ []) (hs : l.state.selected = some i)
    (hi : l.messages.length - 1 ≤ i) :
    (l.next_message).state.selected = some (l.messages.length - 1) := by
  obtain ⟨⟨sel⟩, msgs, mode⟩ := l
  have hs' : sel = some i := hs
  subst hs'
  cases msgs with
  | nil => exact absurd rfl h
  | cons a msgs =>
    have hi' : msgs.length ≤ i := by
      have : (a :: msgs).length - 1 ≤ i := hi
      simp only [List.length_cons] at this
      omega
    simp [ScrollableMessageList.next_message, hi']

theorem messageNextN_sel (l : ScrollableMessageList) :
    ∀ (k i : Nat), l.state.selected = some i → i + k < l.messages.length →
      ((l.nextN k).state.selected = some (i + k)) := by
  intro k
  induction k with
  | zero => intro i hs _; simpa using hs
  | succ k ih =>
    intro i hs hik
    show ((l.nextN k).next_message).state.selected = some (i + (k + 1))
    have h1 : (l.nextN k).state.selected = some (i + k) :=
      ih i hs (by omega)
    have h2 : (i + k) + 1 < (l.nextN k).messages.length := by
      rw [messageNextN_messages]; omega
    have := next_message_sel_of_lt (l.nextN k) (i + k) h1 h2
    simpa [Nat.add_assoc] using this

theorem messageNextN_add (l : ScrollableMessageList) (a : Nat) :
    ∀ b, l.nextN (a + b) = (l.nextN a).nextN b := by
  intro b
  induction b with
  | zero => rfl
  | succ b ih =>
    show (l.nextN (a + b)).next_message = ((l.nextN a).nextN b).next_message
    rw [ih]

theorem messageNextN_stay (l : ScrollableMessageList)
    (h : l.messages ≠ []) :
    ∀ k, l.state.selected = some (l.messages.length - 1) →
      (l.nextN k).state.selected = some (l.messages.length - 1) := by
  intro k
  induction k with
  | zero => intro hs; simpa using hs
  | succ k ih =>
    intro hs
    show ((l.nextN k).next_message).state.selected
        = some (l.messages.length - 1)
    have hmsg : (l.nextN k).messages = l.messages := messageNextN_messages l k
    have h1 : (l.nextN k).state.selected
        = some ((l.nextN k).messages.length - 1) := by
      rw [hmsg]; exact ih hs
    have h2 := next_message_sel_of_last (l.nextN k)
      ((l.nextN k).messages.length - 1) (by rw [hmsg]; exact h) h1
      (Nat.le_refl _)
    rw [hmsg] at h2
    exact h2

/-- C3 counterexample: on a two-member roster, two next() calls from unset
selection land on index 1 = n - 1, but the third next() call wraps the
selection to index 0 (src/app.rs lines 135-145) instead of staying at n - 1,
so next() is not `min(current+1, len-1)` for the roster (nor the room list). -/
theorem member_next_wraps_after_last :
    ((ScrollableMemberList.with_members
        [("a", "ua"), ("b", "ub")]).nextN 2).state.selected = some 1
    ∧ ((ScrollableMemberList.with_members
        [("a", "ua"), ("b", "ub")]).nextN 3).state.selected = some 0
    ∧ ((ScrollableMemberList.with_members
        [("a", "ua"), ("b", "ub")]).nextN 3).state.selected ≠ some 1 := by
  refine ⟨rfl, rfl, by decide⟩

/-- C3 (amended): from an unset selection on a collection of length n > 0,
n next() calls land the selection on index n - 1 for all three collections;
for the message timeline every further next() call stays at n - 1 (next
selects min(current+1, len-1)), while for the room list and the member roster
one further next() call wraps the selection to index 0 (their next selects
current+1 below the last index and 0 at or past it). -/
theorem next_repeat_amended :
    (∀ (ms : List (String × String)) (n : Nat), ms.length = n → 0 < n →
      ((ScrollableMemberList.with_members ms).nextN n).state.selected
          = some (n - 1)
      ∧ ((ScrollableMemberList.with_members ms).nextN (n + 1)).state.selected
          = some 0)
    ∧ (∀ (l : ScrollableRoomList) (n : Nat), l.state.selected = none →
        l.rooms.length = n → 0 < n →
        (l.nextN n).state.selected = some (n - 1)
        ∧ (l.nextN (n + 1)).state.selected = some 0)
    ∧ (∀ (l : ScrollableMessageList) (n : Nat), l.state.selected = none →
        l.messages.length = n → 0 < n →
        ∀ k, (l.nextN (n + k)).state.selected = some (n - 1)) := by
  refine ⟨?_, ?_, ?_⟩
  · intro ms n hlen hn
    have hne : ms ≠ [] := by
      intro h
      rw [h] at hlen
      simp at hlen
      omega
    have h1 : ((ScrollableMemberList.with_members ms).next_member).state.selected
        = some 0 := next_member_sel_of_none _ hne rfl
    have hkey : ((ScrollableMemberList.with_members ms).nextN n).state.selected
        = some (n - 1) := by
      have hsplit : (ScrollableMemberList.with_members ms).nextN n
          = ((ScrollableMemberList.with_members ms).nextN 1).nextN (n - 1) := by
        rw [← memberNextN_add]
        congr 1
        omega
      rw [hsplit]
      have h3 : 0 + (n - 1)
          < ((ScrollableMemberList.with_members ms).nextN 1).members.length := by
        rw [memberNextN_members]
        show 0 + (n - 1) < ms.length
        omega
      have h4 := memberNextN_sel
        ((ScrollableMemberList.with_members ms).nextN 1) (n - 1) 0 h1 h3
      simpa using h4
    refine ⟨hkey, ?_⟩
    show (((ScrollableMemberList.with_members ms).nextN n).next_member).state.selected
        = some 0
    apply next_member_sel_of_last _ (n - 1)
    · rw [memberNextN_members]
      exact hne
    · exact hkey
    · rw [memberNextN_members]
      show ms.length - 1 ≤ n - 1
      omega
  · intro l n hsel hlen hn
    have hne : l.rooms ≠ [] := by
      intro h
      rw [h] at hlen
      simp at hlen
      omega
    have h1 : (l.next_room).state.selected = some 0 :=
      next_room_sel_of_none _ hne hsel
    have hkey : (l.nextN n).state.selected = some (n - 1) := by
      have hsplit : l.nextN n = (l.nextN 1).nextN (n - 1) := by
        rw [← roomNextN_add]
        congr 1
        omega
      rw [hsplit]
      have h3 : 0 + (n - 1) < (l.nextN 1).rooms.length := by
        rw [roomNextN_rooms, hlen]
        omega
      have h4 := roomNextN_sel (l.nextN 1) (n - 1) 0 h1 h3
      simpa using h4
    refine ⟨hkey, ?_⟩
    show ((l.nextN n).next_room).state.selected = some 0
    apply next_room_sel_of_last _ (n - 1)
    · rw [roomNextN_rooms]
      exact hne
    · exact hkey
    · rw [roomNextN_rooms, hlen]
  · intro l n hsel hlen hn k
    have hne : l.messages ≠ [] := by
      intro h
      rw [h] at hlen
      simp at hlen
      omega
    have h1 : (l.next_message).state.selected = some 0 :=
      next_message_sel_of_none _ hne hsel
    have hkey : (l.nextN n).state.selected = some (n - 1) := by
      have hsplit : l.nextN n = (l.nextN 1).nextN (n - 1) := by
        rw [← messageNextN_add]
        congr 1
        omega
      rw [hsplit]
      have h3 : 0 + (n - 1) < (l.nextN 1).messages.length := by
        rw [messageNextN_messages, hlen]
        omega
      have h4 := messageNextN_sel (l.nextN 1) (n - 1) 0 h1 h3
      simpa using h4
    rw [messageNextN_add l n k]
    have hne2 : (l.nextN n).messages ≠ [] := by
      rw [messageNextN_messages]
      exact hne
    have hkey2 : (l.nextN n).state.selected
        = some ((l.nextN n).messages.length - 1) := by
      rw [messageNextN_messages, hlen]
      exact hkey
    have h5 := messageNextN_stay (l.nextN n) hne2 k hkey2
    rw [messageNextN_messages, hlen] at h5
    exact h5

/-- Witness for `next_repeat_amended` at concrete collections: a two-member
roster, the room directory loaded with rooms r1 and r2, and a one-message
timeline with unset selection. -/
theorem next_repeat_amended_witness :
    (((ScrollableMemberList.with_members
        [("a", "ua"), ("b", "ub")]).nextN 2).state.selected = some 1
      ∧ ((ScrollableMemberList.with_members
        [("a", "ua"), ("b", "ub")]).nextN 3).state.selected = some 0)
    ∧ (((App.new [roomDataR1, roomDataR2]).rooms.nextN 2).state.selected = some 1
      ∧ ((App.new [roomDataR1, roomDataR2]).rooms.nextN 3).state.selected
          = some 0)
    ∧ ((⟨⟨none⟩, [("t1", "a", "m1")],
        MessageViewMode.Follow⟩ : ScrollableMessageList).nextN 4).state.selected
        = some 0 := by
  refine ⟨?_, ?_, ?_⟩
  · have h := next_repeat_amended.1 [("a", "ua"), ("b", "ub")] 2 rfl (by omega)
    exact ⟨h.1, h.2⟩
  · have h := next_repeat_amended.2.1 (App.new [roomDataR1, roomDataR2]).rooms
      2 rfl rfl (by omega)
    exact ⟨h.1, h.2⟩
  · exact next_repeat_amended.2.2
      (⟨⟨none⟩, [("t1", "a", "m1")], MessageViewMode.Follow⟩ :
        ScrollableMessageList) 1 rfl rfl (by omega) 3

/-- C5: the four-state `next_tab` transition table - Room to Messages;
Messages to Input when a room is selected and back to Room when not; Input to
Members; Members to Room, clearing the active room's member-roster selection.
Consequently four calls from Room with a room selected return to Room, and
with a freshly-constructed empty directory a call from Messages returns to
Room, not Input. -/
theorem next_tab_transition_table :
    (∀ app : App, app.current_tab = Tabs.Room →
      (app.next_tab).current_tab = Tabs.Messages)
    ∧ (∀ (app : App) (i : Nat), app.current_tab = Tabs.Messages →
        app.rooms.state.selected = some i →
        (app.next_tab).current_tab = Tabs.Input)
    ∧ (∀ app : App, app.current_tab = Tabs.Messages →
        app.rooms.state.selected = none →
        (app.next_tab).current_tab = Tabs.Room)
    ∧ (∀ app : App, app.current_tab = Tabs.Input →
        (app.next_tab).current_tab = Tabs.Members)
    ∧ (∀ app : App, app.current_tab = Tabs.Members →
        (app.next_tab).current_tab = Tabs.Room)
    ∧ (∀ (app : App) (i : Nat) (r : Room), app.current_tab = Tabs.Members →
        app.rooms.state.selected = some i →
        app.rooms.rooms.get? i = some r →
        (app.next_tab).rooms.rooms.get? i
          = some { r with members := { r.members with state := ⟨none⟩ } })
    ∧ (∀ (app : App) (i : Nat), app.current_tab = Tabs.Room →
        app.rooms.state.selected = some i →
        (app.next_tab.next_tab.next_tab.next_tab).current_tab = Tabs.Room)
    ∧ (∀ app : App, app.rooms = ScrollableRoomList.new →
        app.current_tab = Tabs.Messages →
        (app.next_tab).current_tab = Tabs.Room) := by
  refine ⟨?_, ?_, ?_, ?_, ?_, ?_, ?_, ?_⟩
  · rintro ⟨rooms, tab, inp⟩ h
    have h' : tab = Tabs.Room := h
    subst h'
    rfl
  · rintro ⟨⟨⟨sel⟩, rs⟩, tab, inp⟩ i h hs
    have h' : tab = Tabs.Messages := h
    subst h'
    have hs' : sel = some i := hs
    subst hs'
    rfl
  · rintro ⟨⟨⟨sel⟩, rs⟩, tab, inp⟩ h hs
    have h' : tab = Tabs.Messages := h
    subst h'
    have hs' : sel = none := hs
    subst hs'
    rfl
  · rintro ⟨rooms, tab, inp⟩ h
    have h' : tab = Tabs.Input := h
    subst h'
    rfl
  · rintro ⟨⟨⟨sel⟩, rs⟩, tab, inp⟩ h
    have h' : tab = Tabs.Members := h
    subst h'
    cases sel <;> rfl
  · rintro ⟨⟨⟨sel⟩, rs⟩, tab, inp⟩ i r h hs hr
    have h' : tab = Tabs.Members := h
    subst h'
    have hs' : sel = some i := hs
    subst hs'
    show (modifyIdx
        (fun r => { r with members := { r.members with state := ⟨none⟩ } })
        i rs).get? i = _
    rw [get?_modifyIdx_self]
    have hr' : rs.get? i = some r := hr
    rw [hr']
    rfl
  · rintro ⟨⟨⟨sel⟩, rs⟩, tab, inp⟩ i h hs
    have h' : tab = Tabs.Room := h
    subst h'
    have hs' : sel = some i := hs
    subst hs'
    rfl
  · rintro ⟨rooms, tab, inp⟩ h htab
    have h' : rooms = ScrollableRoomList.new := h
    subst h'
    have htab' : tab = Tabs.Messages := htab
    subst htab'
    rfl

/-- Witness for `next_tab_transition_table`: the round trip on the app with
rooms r1, r2 and room index 1 selected, and the Messages-to-Room fallback on
a fresh app with an empty directory. -/
theorem next_tab_transition_table_witness :
    (appTwoRoomsSelSecond.next_tab.next_tab.next_tab.next_tab).current_tab
        = Tabs.Room
    ∧ (({ App.new [] with current_tab := Tabs.Messages } : App).next_tab).current_tab
        = Tabs.Room := by
  exact ⟨next_tab_transition_table.2.2.2.2.2.2.1 appTwoRoomsSelSecond 1 rfl rfl,
    next_tab_transition_table.2.2.2.2.2.2.2 _ rfl rfl⟩

/-- C6: a membership Leave event whose target is the local user and whose room
is at position i of the directory removes that room from the directory, resets
the directory selection to none exactly when the removed index was selected,
and resets the tab to Room exactly when it was Members or Input (in particular
always when it was Members). -/
theorem self_leave_removes_room :
    ∀ (app : App) (event : OriginalSyncRoomMemberEvent)
      (room : MatrixRoomData) (uid : String) (i : Nat),
      event.membership = MembershipState.Leave →
      event.state_key = uid →
      findIndex (fun r => r.id == room.room_id) app.rooms.rooms = some i →
      (app.handle_matrix_room_event event room (some uid)).rooms.rooms
          = removeIdx app.rooms.rooms i
      ∧ (app.handle_matrix_room_event event room (some uid)).rooms.state.selected
          = (if app.rooms.state.selected = some i then none
             else app.rooms.state.selected)
      ∧ (app.handle_matrix_room_event event room (some uid)).current_tab
          = (if app.current_tab = Tabs.Members ∨ app.current_tab = Tabs.Input
             then Tabs.Room else app.current_tab)
      ∧ (app.current_tab = Tabs.Members →
          (app.handle_matrix_room_event event room (some uid)).current_tab
            = Tabs.Room) := by
  intro app event room uid i hmem hsk hfind
  obtain ⟨mem, sk, dn⟩ := event
  have hmem' : mem = MembershipState.Leave := hmem
  subst hmem'
  have hsk' : sk = uid := hsk
  have heq : app.handle_matrix_room_event
      ⟨MembershipState.Leave, sk, dn⟩ room (some uid)
      = app.handle_leave ⟨MembershipState.Leave, sk, dn⟩ room uid := rfl
  rw [heq]
  simp only [App.handle_leave]
  rw [hfind]
  dsimp only
  rw [if_pos hsk']
  refine ⟨rfl, rfl, rfl, fun htab => ?_⟩
  rw [if_pos (Or.inl htab)]

/-- Room "R1" with member alice and the single message ("t1","alice","hi"). -/
def roomDataLeaveScenario : MatrixRoomData :=
  { room_id := "R1", display_name := some "R1",
    joined_members := some [(some "alice", "@alice:x")],
    timeline := some [TimelineItem.msg "t1" "alice" "hi"] }

/-- App showing room "R1" (selected, index 0) with the Members tab active. -/
def appMembersTabR1 : App :=
  { rooms := { state := ⟨some 0⟩, rooms := [Room.new roomDataLeaveScenario] },
    current_tab := Tabs.Members, input := "" }

/-- Witness for `self_leave_removes_room`: the spec scenario - room "R1" holds
[("t1","alice","hi")], TabState is Members, a self Leave for "R1" arrives; the
room is removed, the selection is cleared and the tab resets to Room. -/
theorem self_leave_removes_room_witness :
    (appMembersTabR1.handle_matrix_room_event leaveSelfEvent
        roomDataLeaveScenario (some "@me:x")).rooms.rooms = []
    ∧ (appMembersTabR1.handle_matrix_room_event leaveSelfEvent
        roomDataLeaveScenario (some "@me:x")).rooms.state.selected = none
    ∧ (appMembersTabR1.handle_matrix_room_event leaveSelfEvent
        roomDataLeaveScenario (some "@me:x")).current_tab = Tabs.Room := by
  have h := self_leave_removes_room appMembersTabR1 leaveSelfEvent
    roomDataLeaveScenario "@me:x" 0 rfl rfl rfl
  exact ⟨h.1, h.2.1.trans (if_pos rfl), h.2.2.2 rfl⟩

/-- C8: the roster upsert of two Join events with the same user id leaves
exactly one entry with that id whenever the roster started with at most one
(in particular none); and `remove_by_user_id` on the selected entry leaves the
roster selection unset. -/
theorem roster_upsert_idempotent_and_remove_deselects :
    (∀ (members : List (String × String)) (da db u : String),
      (members.filter (fun m => m.2 == u)).length ≤ 1 →
      ((membersUpsert (membersUpsert members da u) db u).filter
          (fun m => m.2 == u)).length = 1)
    ∧ (∀ (l : ScrollableMemberList) (u : String) (j : Nat),
        findIndex (fun m => m.2 == u) l.members = some j →
        l.state.selected = some j →
        (l.remove_by_user_id u).state.selected = none) := by
  constructor
  · intro members da db u hle
    cases hf : findIndex (fun m => m.2 == u) members with
    | some k =>
      have h1 : membersUpsert members da u = members := by
        unfold membersUpsert
        rw [hf]
      rw [h1]
      have h2 : membersUpsert members db u = members := by
        unfold membersUpsert
        rw [hf]
      rw [h2]
      have hpos := filter_pos_of_findIndex_some hf
      omega
    | none =>
      have h1 : membersUpsert members da u = members ++ [(da, u)] := by
        unfold membersUpsert
        rw [hf]
      rw [h1]
      have hcat : findIndex (fun m => m.2 == u) (members ++ [(da, u)])
          = some members.length :=
        findIndex_concat_of_none hf (by simp)
      have h2 : membersUpsert (members ++ [(da, u)]) db u
          = members ++ [(da, u)] := by
        unfold membersUpsert
        rw [hcat]
      rw [h2]
      rw [List.filter_append, findIndex_none_filter hf]
      simp
  · intro l u j hfind hsel
    unfold ScrollableMemberList.remove_by_user_id
    rw [hfind]
    simp [hsel]

/-- Witness for `roster_upsert_idempotent_and_remove_deselects`: upserting
bob twice into a one-member roster yields one bob entry; removing alice while
alice (index 0) is selected unsets the selection. -/
theorem roster_upsert_idempotent_and_remove_deselects_witness :
    ((membersUpsert (membersUpsert [("alice", "@alice:x")] "Bob" "@bob:x")
        "Bobby" "@bob:x").filter (fun m => m.2 == "@bob:x")).length = 1
    ∧ ((⟨⟨some 0⟩, [("alice", "@alice:x")]⟩ : ScrollableMemberList).remove_by_user_id
        "@alice:x").state.selected = none := by
  exact ⟨roster_upsert_idempotent_and_remove_deselects.1
      [("alice", "@alice:x")] "Bob" "Bobby" "@bob:x" (by decide),
    roster_upsert_idempotent_and_remove_deselects.2
      ⟨⟨some 0⟩, [("alice", "@alice:x")]⟩ "@alice:x" 0 rfl rfl⟩

/-- C9: the Enter handler sends only when a room is selected and the drained
text is non-empty - a performed send determines a selected room whose id is
the sent room id and whose text is the full input buffer; an empty InputBuffer
never produces an external send; and when a room is current the buffer is
drained. -/
theorem submit_input_send_guard :
    (∀ (env : SendEnv) (app : App) (rid m : String),
      (App.submit_input env app).2 = some (rid, m) →
      m ≠ ""
      ∧ ∃ (i : Nat) (r : Room), app.rooms.state.selected = some i
          ∧ app.rooms.rooms.get? i = some r ∧ r.id = rid ∧ m = app.input)
    ∧ (∀ (env : SendEnv) (app : App), app.input = "" →
        (App.submit_input env app).2 = none)
    ∧ (∀ (env : SendEnv) (app : App) (r : Room),
        app.rooms.get_current_room = some r →
        ((App.submit_input env app).1).input = "") := by
  refine ⟨?_, ?_, ?_⟩
  · intro env app rid m h
    unfold App.submit_input at h
    cases hc : app.rooms.get_current_room with
    | none => rw [hc] at h; cases h
    | some room =>
      rw [hc] at h
      dsimp only at h
      unfold sendMessage at h
      by_cases he : app.input = ""
      · rw [if_pos he] at h; cases h
      · rw [if_neg he] at h
        by_cases hv : env.valid_room room.id = true
        · rw [if_pos hv] at h
          injection h with h'
          have h1 : rid = room.id := (congrArg Prod.fst h').symm
          have h2 : m = app.input := (congrArg Prod.snd h').symm
          subst h1
          subst h2
          refine ⟨he, ?_⟩
          unfold ScrollableRoomList.get_current_room at hc
          cases hsel : app.rooms.state.selected with
          | none => rw [hsel] at hc; cases hc
          | some i =>
            rw [hsel] at hc
            exact ⟨i, room, rfl, hc, rfl, rfl⟩
        · rw [if_neg hv] at h; cases h
  · intro env app he
    unfold App.submit_input
    cases hc : app.rooms.get_current_room with
    | none => rfl
    | some room =>
      dsimp only
      unfold sendMessage
      rw [if_pos he]
  · intro env app r hc
    unfold App.submit_input
    rw [hc]

/-- Witness for `submit_input_send_guard` on the app showing room "R1": a
performed send of "hello" pins down the selected room and text, the empty
buffer sends nothing, and submitting drains the buffer. -/
theorem submit_input_send_guard_witness :
    ("hello" ≠ ""
      ∧ ∃ (i : Nat) (r : Room),
          ({ appMembersTabR1 with input := "hello" } : App).rooms.state.selected
            = some i
          ∧ ({ appMembersTabR1 with
              input := "hello" } : App).rooms.rooms.get? i = some r
          ∧ r.id = "R1"
          ∧ "hello" = ({ appMembersTabR1 with input := "hello" } : App).input)
    ∧ (App.submit_input ⟨fun _ => true⟩ appMembersTabR1).2 = none
    ∧ ((App.submit_input ⟨fun _ => true⟩
        { appMembersTabR1 with input := "hello" }).1).input = "" := by
  refine ⟨?_, ?_, ?_⟩
  · exact submit_input_send_guard.1 ⟨fun _ => true⟩
      { appMembersTabR1 with input := "hello" } "R1" "hello" rfl
  · exact submit_input_send_guard.2.1 ⟨fun _ => true⟩ appMembersTabR1 rfl
  · exact submit_input_send_guard.2.2 ⟨fun _ => true⟩
      { appMembersTabR1 with input := "hello" } (Room.new roomDataLeaveScenario)
      rfl

/-- The received membership events folded through the handler in arrival
order; each element carries the event, the SDK room it refers to, and the
`client.user_id()` resolved while processing it. -/
def App.handle_events (app : App) :
    List (OriginalSyncRoomMemberEvent × MatrixRoomData × Option String) → App
  | [] => app
  | e :: es => (app.handle_matrix_room_event e.1 e.2.1 e.2.2).handle_events es

theorem handle_join_ids (app : App) (event : OriginalSyncRoomMemberEvent)
    (room : MatrixRoomData) (uid : String)
    (h : (app.rooms.rooms.map Room.id).Nodup) :
    (((app.handle_join event room uid).rooms.rooms.map Room.id)).Nodup := by
  simp only [App.handle_join]
  cases hf : findIndex (fun r => r.id == room.room_id) app.rooms.rooms with
  | some i =>
    dsimp only
    exact nodup_map_modifyIdx (fun _ => rfl) h
  | none =>
    dsimp only
    by_cases hsk : event.state_key = uid
    · rw [if_pos hsk]
      dsimp only [ScrollableRoomList.add_room]
      rw [List.map_append]
      have hnot : room.room_id ∉ app.rooms.rooms.map Room.id := by
        intro hmem
        rcases List.mem_map.mp hmem with ⟨r, hr, hid⟩
        have hfr := findIndex_none_forall hf r hr
        rw [hid] at hfr
        simp at hfr
      rw [List.nodup_append]
      refine ⟨h, List.nodup_singleton _, ?_⟩
      intro a ha hb
      have hab : a = room.room_id := by
        simpa using hb
      rw [hab] at ha
      exact hnot ha
    · rw [if_neg hsk]
      exact h

theorem handle_leave_ids (app : App) (event : OriginalSyncRoomMemberEvent)
    (room : MatrixRoomData) (uid : String)
    (h : (app.rooms.rooms.map Room.id).Nodup) :
    (((app.handle_leave event room uid).rooms.rooms.map Room.id)).Nodup := by
  simp only [App.handle_leave]
  cases hf : findIndex (fun r => r.id == room.room_id) app.rooms.rooms with
  | some i =>
    dsimp only
    by_cases hsk : event.state_key = uid
    · rw [if_pos hsk]
      dsimp only
      rw [map_removeIdx]
      exact List.Nodup.sublist (removeIdx_sublist _ i) h
    · rw [if_neg hsk]
      dsimp only
      exact nodup_map_modifyIdx (fun _ => rfl) h
  | none =>
    exact h

theorem handle_room_event_ids (app : App)
    (event : OriginalSyncRoomMemberEvent) (room : MatrixRoomData)
    (cuid : Option String) (h : (app.rooms.rooms.map Room.id).Nodup) :
    (((app.handle_matrix_room_event event room cuid).rooms.rooms.map
        Room.id)).Nodup := by
  unfold App.handle_matrix_room_event
  cases cuid with
  | none => exact h
  | some uid =>
    dsimp only
    by_cases hl : event.membership = MembershipState.Leave
    · rw [if_pos hl]
      have hj : ¬ event.membership = MembershipState.Join := by
        rw [hl]
        intro hc
        cases hc
      rw [if_neg hj]
      exact handle_leave_ids _ _ _ _ h
    · rw [if_neg hl]
      by_cases hj : event.membership = MembershipState.Join
      · rw [if_pos hj]
        exact handle_join_ids _ _ _ _ h
      · rw [if_neg hj]
        exact h

theorem handle_events_ids :
    ∀ (evs : List (OriginalSyncRoomMemberEvent × MatrixRoomData
        × Option String)) (app : App),
      (app.rooms.rooms.map Room.id).Nodup →
      ((app.handle_events evs).rooms.rooms.map Room.id).Nodup := by
  intro evs
  induction evs with
  | nil => intro app h; exact h
  | cons e es ih =>
    intro app h
    exact ih _ (handle_room_event_ids app e.1 e.2.1 e.2.2 h)

theorem foldl_add_room_rooms (ds : List MatrixRoomData) :
    ∀ (rl : ScrollableRoomList),
      (ds.foldl (fun rl room => rl.add_room room) rl).rooms
        = rl.rooms ++ ds.map Room.new := by
  induction ds with
  | nil => intro rl; simp
  | cons d ds ih =>
    intro rl
    rw [List.foldl_cons, ih]
    simp [ScrollableRoomList.add_room]

theorem app_new_ids (init : List MatrixRoomData) :
    (App.new init).rooms.rooms.map Room.id
      = init.map MatrixRoomData.room_id := by
  unfold App.new App.load_rooms
  dsimp only
  rw [foldl_add_room_rooms]
  rw [show ScrollableRoomList.new.rooms = ([] : List Room) from rfl,
    List.nil_append, List.map_map]
  rfl

/-- C4: for any initial room load whose reported room ids are pairwise
distinct (the SDK's joined-room listing) and any sequence of membership
events (self-join creation, roster updates, self-leave removal), the room
directory never contains two entries with the same room id. -/
theorem room_ids_nodup_preserved :
    ∀ (init : List MatrixRoomData)
      (evs : List (OriginalSyncRoomMemberEvent × MatrixRoomData
        × Option String)),
      (init.map MatrixRoomData.room_id).Nodup →
      (((App.new init).handle_events evs).rooms.rooms.map Room.id).Nodup := by
  intro init evs h
  apply handle_events_ids
  rw [app_new_ids]
  exact h

/-- Witness for `room_ids_nodup_preserved`: load r1 and r2, then process a
self Leave for r1. -/
theorem room_ids_nodup_preserved_witness :
    (((App.new [roomDataR1, roomDataR2]).handle_events
        [(leaveSelfEvent, roomDataR1,
          some "@me:x")]).rooms.rooms.map Room.id).Nodup := by
  exact room_ids_nodup_preserved [roomDataR1, roomDataR2]
    [(leaveSelfEvent, roomDataR1, some "@me:x")] (by decide)
